import Mathlib

/-!
Shallow embedding of the nm-api scraper (src/index.js, src/models) in Lean 4,
with theorems settling the specification's claims.

Conventions: timestamps are modelled as minutes since the Unix epoch (Int);
numeric cell values of the historical table are abstracted as Int (the claims
never depend on numeric semantics, only on which values flow where); JS Sets
are modelled as lists with membership, JS objects used as maps as association
lists; async control flow is modelled as explicit state passing, and the
unbounded `while (true)` loops as fuel-indexed recursion.
-/

-- ======================= basic character/string helpers =======================

/-- Trim ASCII whitespace from both ends of a character list, mirroring
`String.prototype.trim`. -/
def trimChars (cs : List Char) : List Char :=
  ((cs.dropWhile Char.isWhitespace).reverse.dropWhile Char.isWhitespace).reverse

/-- Lowercase every character, mirroring `String.prototype.toLowerCase` on
ASCII input. -/
def lowerChars (cs : List Char) : List Char :=
  cs.map Char.toLower

/-- Split a character list on runs of whitespace, dropping empty segments.
This mirrors the JS normalization `trim().replace(/\s+/g, ' ')` followed by
matching an anchored regex with single spaces between groups. -/
def splitWsAux : List Char → List Char → List (List Char)
  | [], cur => if cur = [] then [] else [cur.reverse]
  | c :: cs, cur =>
    if c.isWhitespace then
      if cur = [] then splitWsAux cs [] else cur.reverse :: splitWsAux cs []
    else
      splitWsAux cs (c :: cur)

/-- Numeric value of a list of decimal digit characters, mirroring
`parseInt(s, 10)` on all-digit input. -/
def natOfDigits (cs : List Char) : Nat :=
  cs.foldl (fun n c => 10 * n + (c.toNat - 48)) 0

-- ============================ author utilities ============================
-- Embedded from src/index.js lines 341-383.

def AUTHOR_ALLOW : List String := ["cp", "ayu", "az", "azf", "yds", "arl", "alg", "mrv"]

def AUTHOR_BLACKLIST : List String := [
  "wti", "brent", "fed", "ecb", "boj", "pboc", "fomc", "cpi", "pmi", "gdp", "usd", "eur", "jpy", "ppi", "nfp", "iea", "opec", "ath", "dxy",
  "hkex", "hsi", "dax", "stoxx", "spx", "ndx", "vix", "tsx", "nifty", "sensex", "eia", "api", "bnb", "ada", "sol", "xrp", "dot", "doge",
  "tlt", "ust", "imf", "wto", "who", "un", "eu", "uk", "us", "id", "sg", "my", "th", "vn", "ph",
  "ai", "ml", "nlp", "fx", "ipo", "yoy", "mom", "qoq",
  "bps", "sep", "boe", "boc", "rba", "rbnz", "bcb", "ihk", "ihp", "ihsg", "wib", "wita", "wit", "ttm", "ytd", "q1", "q2", "q3", "q4",
  "bri", "bni", "btn", "bsi", "bca", "cimb", "ocbc", "uob", "dbs",
  "rabu", "kamis", "jumat", "sabtu", "minggu", "senin", "selasa",
  "news", "newsmaker", "source", "sumber", "editor", "desk"]

def AUTHOR_ALIASES : List (String × String) :=
  [("cp", "cp"), ("cP", "cp"), ("CP", "cp"), ("ayu", "ayu"), ("ayiu", "ayu"), ("ayi", "ayu"),
   ("ay", "ayu"), ("ads", "ayu"), ("az", "az"), ("azf", "azf"), ("yds", "yds"), ("arl", "arl"),
   ("alg", "alg"), ("mrv", "mrv")]

def AUTHOR_NAME_MAP : List (String × String) :=
  [("cp", "Broto"), ("ayu", "Ayu"), ("az", "Nova"), ("azf", "Nova"), ("yds", "Yudis"),
   ("arl", "Arul"), ("alg", "Burhan"), ("mrv", "Marvy")]

/-- Attempt to match the regex `\(([a-z]+)\)` (2 to 6 letters, case-insensitive)
at the head of the character list; returns the captured group. A greedy
letter-quantifier followed by a mandatory closing parenthesis matches exactly
when the maximal letter run after the opening parenthesis has length 2 to 6 and
is immediately followed by a closing parenthesis. -/
def parenMatchAt : List Char → Option (List Char)
  | '(' :: rest =>
    let run := rest.takeWhile (fun c => c.isAlpha)
    if 2 ≤ run.length ∧ run.length ≤ 6 ∧ (rest.drop run.length).head? = some ')' then
      some run
    else
      none
  | _ => none

/-- Leftmost match of the parenthesized author-marker regex over the whole
character list. -/
def findParenCapture : List Char → Option (List Char)
  | [] => none
  | c :: cs =>
    match parenMatchAt (c :: cs) with
    | some r => some r
    | none => findParenCapture cs

/-- Does the string match the anchored regex of 2 to 6 lowercase letters used
by `normalizeAuthorInitial`. -/
def isLowerCode (s : String) : Bool :=
  decide (2 ≤ s.toList.length) && decide (s.toList.length ≤ 6) &&
    s.toList.all (fun c => decide ('a' ≤ c) && decide (c ≤ 'z'))

/-- The candidate code extracted from a raw author marker: trim, take the
first parenthesized 2-to-6-letter group if present (otherwise the whole
trimmed string), lowercase, then apply the typo/alias correction map. -/
def authorCandidate (raw : String) : String :=
  let s0 := trimChars raw.toList
  let s1 := match findParenCapture s0 with
    | some cap => cap
    | none => s0
  let s2 := String.mk (lowerChars s1)
  match AUTHOR_ALIASES.lookup s2 with
  | some a => a
  | none => s2

/-- Embedding of `normalizeAuthorInitial` (src/index.js lines 354-365): extract
the candidate, then require the 2-to-6-lowercase-letter shape, absence from the
deny-list and presence in the allow-list. The empty string models a JS falsy
input. -/
def normalizeAuthorInitial (raw : String) : Option String :=
  if raw = "" then none
  else
    let s := authorCandidate raw
    if isLowerCode s = false then none
    else if AUTHOR_BLACKLIST.contains s then none
    else if AUTHOR_ALLOW.contains s = false then none
    else some s

/-- Embedding of `toAuthorName` (src/index.js line 366). -/
def toAuthorName (initial : Option String) : Option String :=
  AUTHOR_NAME_MAP.lookup (String.mk (lowerChars (initial.getD "").toList))

-- ============================ date parsing ============================
-- Embedded from src/index.js lines 208-236.

def MONTHS_EN : List (String × Nat) :=
  [("jan", 0), ("january", 0), ("feb", 1), ("february", 1), ("mar", 2), ("march", 2),
   ("apr", 3), ("april", 3), ("may", 4), ("jun", 5), ("june", 5), ("jul", 6), ("july", 6),
   ("aug", 7), ("august", 7), ("sep", 8), ("sept", 8), ("september", 8), ("oct", 9),
   ("october", 9), ("nov", 10), ("november", 10), ("dec", 11), ("december", 11)]

def MONTHS_ID : List (String × Nat) :=
  [("jan", 0), ("januari", 0), ("feb", 1), ("februari", 1), ("mar", 2), ("maret", 2),
   ("apr", 3), ("april", 3), ("mei", 4), ("jun", 5), ("juni", 5), ("jul", 6), ("juli", 6),
   ("agu", 7), ("agustus", 7), ("agst", 7), ("sep", 8), ("september", 8), ("okt", 9),
   ("oktober", 9), ("nov", 10), ("november", 10), ("des", 11), ("desember", 11)]

/-- The components captured by the date regex
day group, month-name group, year group, and the optional hour:minute group.
`hasTime` records whether the optional time group was present. -/
structure DateParts where
  day : Nat
  monRaw : List Char
  year : Nat
  hourLocal : Nat
  minuteLocal : Nat
  hasTime : Bool
deriving DecidableEq

def isDayTok (t : List Char) : Bool :=
  decide (1 ≤ t.length) && decide (t.length ≤ 2) && t.all Char.isDigit

def isMonTok (t : List Char) : Bool :=
  decide (1 ≤ t.length) && t.all (fun c => c.isAlpha || decide (c = '.'))

def isYearTok (t : List Char) : Bool :=
  decide (t.length = 4) && t.all Char.isDigit

/-- Match the time tail of the regex: one or two digits, a colon, exactly two
digits, end of token. -/
def parseTimeTok (t : List Char) : Option (Nat × Nat) :=
  let h := t.takeWhile Char.isDigit
  match t.drop h.length with
  | ':' :: m =>
    if decide (1 ≤ h.length) && decide (h.length ≤ 2) && decide (m.length = 2) &&
        m.all Char.isDigit then
      some (natOfDigits h, natOfDigits m)
    else none
  | _ => none

/-- Tokenized equivalent of matching the anchored date regex of
`parsePublishedAt` against the whitespace-normalized string. When the optional
time group is absent the local time defaults to hour 12, minute 0 exactly as in
the source. -/
def parseDateParts (s : String) : Option DateParts :=
  match splitWsAux s.toList [] with
  | [d, mon, y] =>
    if isDayTok d && isMonTok mon && isYearTok y then
      some ⟨natOfDigits d, mon, natOfDigits y, 12, 0, false⟩
    else none
  | [d, mon, y, t] =>
    if isDayTok d && isMonTok mon && isYearTok y then
      match parseTimeTok t with
      | some (h, m) => some ⟨natOfDigits d, mon, natOfDigits y, h, m, true⟩
      | none => none
    else none
  | _ => none

/-- Day-of-year offset (0-based, March = month 3 giving 0) of the first day of
a 1-based month, from the standard civil-from-days calendar algorithm. -/
def monthDayOfYear (m : Nat) : Nat :=
  (153 * (m + (if 2 < m then 0 else 12) - 3) + 2) / 5

/-- Days from the civil epoch 0000-03-01 to the first day of the given
1-based month in the given year (proleptic Gregorian). -/
def civilDays (y m : Nat) : Nat :=
  let ya := y - (if m ≤ 2 then 1 else 0)
  let era := ya / 400
  let yoe := ya - era * 400
  let doe := yoe * 365 + yoe / 4 - yoe / 100 + monthDayOfYear m
  era * 146097 + doe

/-- Days since the Unix epoch of the civil date (y, m, d), m 1-based. -/
def daysFromCivil (y m d : Nat) : Int :=
  (civilDays y m : Int) + d - 1 - 719468

/-- Minutes since the Unix epoch of the UTC instant y-m-d h:min, with the hour
as an Int so that the fixed source-timezone subtraction may go negative and
roll into the previous day, exactly as `Date.UTC` normalizes it. -/
def utcMinutes (y m d : Nat) (h : Int) (min : Nat) : Int :=
  daysFromCivil y m d * 1440 + h * 60 + min

/-- The `Date.UTC` computation of `parsePublishedAt` applied to captured
components and a resolved 0-based month: two-digit years map to 1900 + y as in
JS, and the fixed +7 source offset is subtracted from the local hour. -/
def utcFromParts (p : DateParts) (month : Nat) : Int :=
  let year := if p.year ≤ 99 then p.year + 1900 else p.year
  utcMinutes year (month + 1) p.day ((p.hourLocal : Int) - 7) p.minuteLocal

/-- Embedding of `parsePublishedAt` (src/index.js lines 211-231), returning
minutes since the Unix epoch. -/
def parsePublishedAt (dateStr : String) (lang : String) : Option Int :=
  match parseDateParts dateStr with
  | none => none
  | some p =>
    let monKey := String.mk ((lowerChars p.monRaw).filter (fun c => c ≠ '.'))
    let isId := String.mk (lowerChars lang.toList) = "id"
    let primary := if isId then MONTHS_ID else MONTHS_EN
    let alt := if isId then MONTHS_EN else MONTHS_ID
    match primary.lookup monKey with
    | some month => some (utcFromParts p month)
    | none =>
      match alt.lookup monKey with
      | some month => some (utcFromParts p month)
      | none => none

-- ===================== news pagination and dedup =====================
-- Embedded from scrapeNewsByLang, src/index.js lines 539-622.

/-- Outcome of fetching and parsing one news list page: a transport error
caught by the try/catch, a detected WAF/challenge page, or a parsed list of
item links. -/
inductive Page where
  | err : Page
  | challenge : Page
  | ok : List String → Page

/-- State of the per-category pagination loop of `scrapeNewsByLang`:
the `start` offset, the consecutive-empty-page counter, the in-run seen set,
the accumulated fresh links and the number of page fetches made so far. -/
structure NewsLoopSt where
  start : Nat
  emptyStreak : Nat
  seen : List String
  acc : List String
  fetches : Nat
deriving DecidableEq

/-- The freshness filter of line 574: an item is fresh iff its link is in
neither the persisted-links set nor the in-run seen set. -/
def freshFilter (existing seen items : List String) : List String :=
  items.filter (fun l => !(existing.contains l) && !(seen.contains l))

/-- One iteration of the news pagination loop body, given the fetched page.
Returns the updated state and whether the loop continues (false = break).
The page size is 10 as in the source. -/
def newsStep (existing : List String) (p : Page) (st : NewsLoopSt) : NewsLoopSt × Bool :=
  let st1 := { st with fetches := st.fetches + 1 }
  match p with
  | .err =>
    if st1.emptyStreak + 1 ≥ 3 then ({ st1 with emptyStreak := st1.emptyStreak + 1 }, false)
    else ({ st1 with emptyStreak := st1.emptyStreak + 1, start := st1.start + 10 }, true)
  | .challenge =>
    if st1.emptyStreak + 1 ≥ 3 then ({ st1 with emptyStreak := st1.emptyStreak + 1 }, false)
    else ({ st1 with emptyStreak := st1.emptyStreak + 1, start := st1.start + 10 }, true)
  | .ok items =>
    let fresh := freshFilter existing st1.seen items
    let st2 := { st1 with seen := st1.seen ++ fresh }
    if fresh.isEmpty then
      if st2.emptyStreak + 1 ≥ 3 then ({ st2 with emptyStreak := st2.emptyStreak + 1 }, false)
      else ({ st2 with emptyStreak := st2.emptyStreak + 1, start := st2.start + 10 }, true)
    else
      ({ st2 with emptyStreak := 0, acc := st2.acc ++ fresh, start := st2.start + 10 }, true)

/-- The per-category `while (true)` pagination loop, fuel-indexed. `fetchPage`
maps a start offset to the page obtained for it. -/
def newsCatLoop (fetchPage : Nat → Page) (existing : List String) : Nat → NewsLoopSt → NewsLoopSt
  | 0, st => st
  | fuel + 1, st =>
    match newsStep existing (fetchPage st.start) st with
    | (st2, false) => st2
    | (st2, true) => newsCatLoop fetchPage existing fuel st2

/-- Initial state of a category crawl. -/
def newsInit : NewsLoopSt := ⟨0, 0, [], [], 0⟩

-- ============================= retry wrapper =============================
-- Embedded from retryRequest, src/index.js lines 266-273.

/-- Result of running the retry wrapper: the final outcome, the number of
times the wrapped function was invoked, and the sleep durations performed
between attempts, in order. -/
structure RetryResult (ε α : Type) where
  result : Except ε α
  attempts : Nat
  sleeps : List Nat

/-- Embedding of `retryRequest(fn, retries, delayMs)`. The wrapped function is
indexed by the attempt number so that distinct attempts are distinguishable.
On failure with a nonzero retry budget it sleeps `delayMs`, then recurses with
`retries - 1` and a doubled delay; with a zero budget it rethrows. -/
def retryRequest (fn : Nat → Except ε α) : Nat → Nat → Nat → RetryResult ε α
  | i, 0, _ =>
    match fn i with
    | .ok a => ⟨.ok a, 1, []⟩
    | .error e => ⟨.error e, 1, []⟩
  | i, retries + 1, delayMs =>
    match fn i with
    | .ok a => ⟨.ok a, 1, []⟩
    | .error _ =>
      let r := retryRequest fn (i + 1) retries (delayMs * 2)
      ⟨r.result, r.attempts + 1, delayMs :: r.sleeps⟩

-- ===================== historical pagination and storage =====================
-- Embedded from scrapePageForSymbol / scrapeAllDataForSymbol /
-- scrapeAllHistoricalData, src/index.js lines 1090-1211, and the
-- HistoricalData model, src/models/historical.js.

/-- A row parsed from the historical table. Numeric cells are abstracted as
Int; `event` is present only on colspan annotation rows. -/
structure ScrapedRow where
  date : String
  open_ : Option Int
  high : Option Int
  low : Option Int
  close : Option Int
  change : Option String
  volume : Option Int
  openInterest : Option Int
  event : Option String
deriving DecidableEq

/-- State of the per-symbol pagination loop of `scrapeAllDataForSymbol`. -/
structure HistSt where
  rows : List ScrapedRow
  start : Nat
  pageCount : Nat
  consecutiveEmptyPages : Nat
  fetches : Nat
deriving DecidableEq

/-- The per-symbol `while (true)` pagination loop, fuel-indexed, mirroring
src/index.js lines 1148-1166: stop on the row ceiling, on the page-count
ceiling, on three consecutive empty pages, or on a page shorter than the page
size 8; otherwise advance the offset by 8 and continue. -/
def histLoop (fetchPage : Nat → List ScrapedRow) (maxRows : Nat) : Nat → HistSt → HistSt
  | 0, st => st
  | fuel + 1, st =>
    if st.rows.length ≥ maxRows then st
    else if st.pageCount ≥ 500 then st
    else
      let pageData := fetchPage st.start
      let st1 := { st with fetches := st.fetches + 1 }
      if pageData.length = 0 then
        if st1.consecutiveEmptyPages + 1 ≥ 3 then
          { st1 with consecutiveEmptyPages := st1.consecutiveEmptyPages + 1 }
        else
          let st2 := { st1 with consecutiveEmptyPages := st1.consecutiveEmptyPages + 1 }
          if pageData.length < 8 then st2
          else histLoop fetchPage maxRows fuel
            { st2 with start := st2.start + 8, pageCount := st2.pageCount + 1 }
      else
        let newRows := st1.rows ++ pageData.take (maxRows - st1.rows.length)
        let st2 := { st1 with consecutiveEmptyPages := 0, rows := newRows }
        if st2.rows.length ≥ maxRows then st2
        else if pageData.length < 8 then st2
        else histLoop fetchPage maxRows fuel
          { st2 with start := st2.start + 8, pageCount := st2.pageCount + 1 }

/-- Initial state of a per-symbol crawl. -/
def histInit : HistSt := ⟨[], 0, 0, 0, 0⟩

/-- A persisted HistoricalData row: identity (symbol, date) plus the data
fields set from the defaults at creation time. -/
structure HistRow where
  symbol : String
  date : String
  event : Option String
  open_ : Option Int
  high : Option Int
  low : Option Int
  close : Option Int
  change : Option String
  volume : Option Int
  openInterest : Option Int
deriving DecidableEq

/-- The (symbol, date) identity of a persisted row. -/
def histKey (r : HistRow) : String × String := (r.symbol, r.date)

/-- Sequelize `findOrCreate` on the unique (symbol, date) index: if a row with
the key exists the table is returned unchanged, otherwise a row built from the
`where` fields and the `defaults` is appended. -/
def findOrCreate (table : List HistRow) (symbol date : String) (defaults : ScrapedRow) : List HistRow :=
  if table.any (fun r => decide (r.symbol = symbol) && decide (r.date = date)) then table
  else table ++ [⟨symbol, date, defaults.event, defaults.open_, defaults.high, defaults.low,
                  defaults.close, defaults.change, defaults.volume, defaults.openInterest⟩]

/-- The persistence pass of `scrapeAllHistoricalData` for one symbol: a
`findOrCreate` per scraped row, in order. -/
def saveScrapedRows (table : List HistRow) (symbolName : String) (rows : List ScrapedRow) : List HistRow :=
  rows.foldl (fun t r => findOrCreate t symbolName r.date r) table

-- ========================= bulk upsert column frame =========================
-- Embedded from the UPDATE_COLS allow-list, src/index.js lines 627-631.

/-- The column allow-list passed as `updateOnDuplicate` to the bulk upsert. -/
def UPDATE_COLS : List String :=
  ["summary", "detail", "author", "author_name", "source_name", "source_url",
   "published_at", "image", "category", "date", "language", "title",
   "createdAt", "updatedAt"]

/-- The column subset the specification enumerates for the on-conflict update
(summary, body/detail, author fields, media/image, category, date, language,
title, timestamps), stated in the spec's words for comparison with the
source's `UPDATE_COLS`. -/
def SPEC_LISTED_UPDATE_COLS : List String :=
  ["summary", "detail", "author", "author_name", "image", "category", "date",
   "language", "title", "published_at", "createdAt", "updatedAt"]

/-- Sequelize `bulkCreate` with `updateOnDuplicate` on a conflicting row:
each column named in the list takes the incoming value, every other column
keeps the existing row's value. Rows are modelled as column-name-indexed
maps. -/
def upsertOnDuplicate (cols : List String) (existing incoming : String → String) : String → String :=
  fun c => if cols.contains c then incoming c else existing c

-- ============================ news row builder ============================
-- Embedded from ensureDate / buildNewsRow, src/index.js lines 233-236 and
-- 514-537.

/-- Input of `buildNewsRow`: a scraped item enriched by the detail fetch. -/
structure NewsItemIn where
  title : String
  link : String
  image : String
  category : String
  date : String
  summary : String
  detail : String
  language : String
  author : Option String
  author_name : Option String
  sourceName : Option String
  publishedAt : Option Int

/-- The row handed to the bulk upsert. -/
structure NewsRow where
  title : String
  link : String
  image : String
  category : String
  date : String
  summary : String
  detail : String
  language : String
  source_name : String
  source_url : String
  author : Option String
  author_name : Option String
  published_at : Int
  createdAt : Int
  updatedAt : Int

/-- Embedding of `ensureDate`: a valid date passes through, anything else
becomes the current time. -/
def ensureDate (d : Option Int) (now : Int) : Int :=
  match d with
  | some t => t
  | none => now

/-- Embedding of `buildNewsRow`: the publish timestamp is the item's parsed
timestamp when present, else a re-parse of the raw date string, else `now`
via `ensureDate`; `createdAt` and `updatedAt` are both set to that same
value. -/
def buildNewsRow (n : NewsItemIn) (now : Int) : NewsRow :=
  let lang := if n.language = "" then "en" else n.language
  let pub0 := match n.publishedAt with
    | some t => some t
    | none => parsePublishedAt n.date lang
  let pub := ensureDate pub0 now
  { title := n.title, link := n.link, image := n.image, category := n.category,
    date := n.date, summary := n.summary, detail := n.detail, language := lang,
    source_name := n.sourceName.getD "Newsmaker23", source_url := n.link,
    author := n.author,
    author_name := match n.author_name with
      | some a => some a
      | none => toAuthorName n.author,
    published_at := pub, createdAt := pub, updatedAt := pub }

-- ========================= symbol catalog cache =========================
-- Embedded from getAllSymbols, src/index.js lines 1060-1088.

/-- The in-process symbol-catalog cache: the cached list (none models the JS
null) and the timestamp of the last fetch. -/
structure SymCache where
  cachedSymbols : Option (List (String × String))
  cachedSymbolsTimestamp : Int
deriving DecidableEq

/-- Embedding of `getAllSymbols`. The staleness condition is the source's
truthiness test `cachedSymbols && (now - cachedSymbolsTimestamp)`: the cache
is used whenever it exists and the elapsed-time difference is a nonzero
number. Returns the symbol list, the updated cache state, and whether a
network fetch happened; `fetched` is the catalog the site would return. -/
def getAllSymbols (fetched : List (String × String)) (now : Int) (st : SymCache) :
    List (String × String) × SymCache × Bool :=
  match st.cachedSymbols with
  | some syms =>
    if now - st.cachedSymbolsTimestamp ≠ 0 then (syms, st, false)
    else (fetched, ⟨some fetched, now⟩, true)
  | none => (fetched, ⟨some fetched, now⟩, true)

-- ========================= distributed lock model =========================
-- Embedded from withLock, src/index.js lines 501-512. Two invocations of
-- withLock on the same key are modelled as two processes, identified by a
-- Bool, each owning a distinct token (its own identifier; the source tokens
-- `Date.now()-Math.random()` are distinct with certainty for this purpose).
-- The Redis key is the shared state; SET NX, GET and DEL are the atomic
-- actions, and an arbitrary interleaving is a list of Bools saying which
-- process takes the next step.

/-- Program counter of one withLock invocation: about to attempt the atomic
SET NX EX, about to run `fn`, about to GET the key in the finally block,
about to compare the read value and conditionally DEL, or finished. -/
inductive LockPC where
  | tryAcquire
  | runJob
  | getTok
  | checkDel
  | finished
deriving DecidableEq, Fintype

/-- Local state of one withLock invocation: its program counter, the value it
read with GET (none before the read), and whether it has executed `fn`. -/
structure LockProcSt where
  pc : LockPC
  v : Option Bool
  ranFn : Bool
deriving DecidableEq, Fintype

/-- Global configuration: the Redis key's current value (none = absent), both
process states, and two history flags: `blocked` records that some SET NX
failed because the key was held (i.e. the two lock-held intervals overlapped),
`badDel` records that a DEL was executed while the key's current value was not
the deleting invocation's token. -/
structure LockConfig where
  key : Option Bool
  proc0 : LockProcSt
  proc1 : LockProcSt
  blocked : Bool
  badDel : Bool
deriving DecidableEq, Fintype

/-- One atomic step of the invocation owning token `tok`, given the current
key value. Returns the new process state, the new key value, whether this
step was a failed SET NX, and whether it was a DEL with a mismatched current
value. Mirrors the source line by line: a failed SET NX returns immediately;
`fn` runs; the finally block GETs the key and DELs it only when the read
value equals the invocation's own token. -/
def lockProcStep (tok : Bool) (p : LockProcSt) (key : Option Bool) :
    LockProcSt × Option Bool × Bool × Bool :=
  match p.pc with
  | .tryAcquire =>
    match key with
    | none => ({ p with pc := .runJob }, some tok, false, false)
    | some _ => ({ p with pc := .finished }, key, true, false)
  | .runJob => ({ p with pc := .getTok, ranFn := true }, key, false, false)
  | .getTok => ({ p with pc := .checkDel, v := key }, key, false, false)
  | .checkDel =>
    if p.v = some tok then
      ({ p with pc := .finished }, none, false, decide (key ≠ some tok))
    else
      ({ p with pc := .finished }, key, false, false)
  | .finished => (p, key, false, false)

/-- Interleaving step: the scheduled process takes one atomic action. -/
def lockStep (who : Bool) (c : LockConfig) : LockConfig :=
  if who then
    let r := lockProcStep true c.proc1 c.key
    { key := r.2.1, proc0 := c.proc0, proc1 := r.1,
      blocked := c.blocked || r.2.2.1, badDel := c.badDel || r.2.2.2 }
  else
    let r := lockProcStep false c.proc0 c.key
    { key := r.2.1, proc0 := r.1, proc1 := c.proc1,
      blocked := c.blocked || r.2.2.1, badDel := c.badDel || r.2.2.2 }

/-- Both invocations poised at their SET NX, key absent. -/
def lockInit : LockConfig :=
  ⟨none, ⟨.tryAcquire, none, false⟩, ⟨.tryAcquire, none, false⟩, false, false⟩

/-- Run an arbitrary schedule of interleaved atomic steps from the initial
configuration. -/
def lockRun (sched : List Bool) : LockConfig :=
  sched.foldl (fun c who => lockStep who c) lockInit

/-- A process that acquired the lock: it is past its SET NX and has executed
`fn` by the time it is past `runJob`. -/
def acquiredPath (p : LockProcSt) : Bool :=
  match p.pc with
  | .tryAcquire => false
  | .runJob => true
  | .getTok => p.ranFn
  | .checkDel => p.ranFn
  | .finished => p.ranFn

/-- A process whose SET NX failed: it finished without ever executing `fn`. -/
def failPath (p : LockProcSt) : Bool :=
  decide (p.pc = .finished) && !p.ranFn

/-- Per-process control invariant for the invocation owning token `tok`:
while it is between its successful SET NX and its DEL, the key holds its
token, and at `checkDel` the value it read is its own token. -/
def lockProcInv (tok : Bool) (p : LockProcSt) (key : Option Bool) : Bool :=
  match p.pc with
  | .tryAcquire => !p.ranFn
  | .runJob => decide (key = some tok) && !p.ranFn
  | .getTok => decide (key = some tok) && p.ranFn
  | .checkDel => decide (key = some tok) && decide (p.v = some tok) && p.ranFn
  | .finished => true

/-- When the key is present, its owner is mid-critical-section. -/
def lockKeyInv (c : LockConfig) : Bool :=
  match c.key with
  | none => true
  | some t =>
    let p := if t then c.proc1 else c.proc0
    decide (p.pc = LockPC.runJob) || decide (p.pc = LockPC.getTok) ||
      decide (p.pc = LockPC.checkDel)

/-- Once an overlap has been observed, one process is on the fail path and the
other on the acquired path. -/
def lockBlockedInv (c : LockConfig) : Bool :=
  !c.blocked || (failPath c.proc0 && acquiredPath c.proc1) ||
    (failPath c.proc1 && acquiredPath c.proc0)

/-- Inductive invariant of the two-invocation lock system. -/
def lockInv (c : LockConfig) : Bool :=
  !c.badDel && lockProcInv false c.proc0 c.key && lockProcInv true c.proc1 c.key &&
    lockKeyInv c && lockBlockedInv c

theorem lockInv_init : lockInv lockInit = true := by decide

set_option maxRecDepth 4000 in
theorem lockInv_step : ∀ (who : Bool) (c : LockConfig),
    lockInv c = true → lockInv (lockStep who c) = true := by
  intro who c
  obtain ⟨key, ⟨pc0, v0, r0⟩, ⟨pc1, v1, r1⟩, b, bd⟩ := c
  revert key v0 r0 v1 r1 b bd
  cases who <;> cases pc0 <;> cases pc1 <;> decide

theorem lockInv_run (sched : List Bool) : lockInv (lockRun sched) = true := by
  suffices h : ∀ c, lockInv c = true → lockInv (sched.foldl (fun c who => lockStep who c) c) = true from
    h lockInit lockInv_init
  induction sched with
  | nil => intro c hc; exact hc
  | cons b bs ih => intro c hc; exact ih _ (lockInv_step b c hc)

-- ================================ theorems ================================

/-- C8: author-marker normalization rejects the deny-listed "(WTI)" with null,
normalizes "(AZF)" to "azf" which resolves to the fixed display name, rejects
the well-formed but not allow-listed "(xx)", and in general accepts a
candidate only if, after alias correction, it is a 2-to-6-letter code outside
the deny-list and inside the allow-list. -/
theorem normalizeAuthorInitial_vocabulary :
    normalizeAuthorInitial "(WTI)" = none ∧
    (normalizeAuthorInitial "(AZF)" = some "azf" ∧ toAuthorName (some "azf") = some "Nova") ∧
    normalizeAuthorInitial "(xx)" = none ∧
    (∀ raw s, normalizeAuthorInitial raw = some s →
      s = authorCandidate raw ∧ isLowerCode s = true ∧
      AUTHOR_BLACKLIST.contains s = false ∧ AUTHOR_ALLOW.contains s = true) := by
  refine ⟨by decide, ⟨by decide, by decide⟩, by decide, ?_⟩
  intro raw s h
  simp only [normalizeAuthorInitial] at h
  by_cases h0 : raw = ""
  · simp [h0] at h
  · rw [if_neg h0] at h
    by_cases h1 : isLowerCode (authorCandidate raw) = false
    · rw [if_pos h1] at h; cases h
    · rw [if_neg h1] at h
      by_cases h2 : AUTHOR_BLACKLIST.contains (authorCandidate raw) = true
      · simp only [h2, if_true] at h; cases h
      · simp only [h2, if_false, Bool.false_eq_true] at h
        by_cases h3 : AUTHOR_ALLOW.contains (authorCandidate raw) = false
        · rw [if_pos h3] at h; cases h
        · rw [if_neg h3] at h
          have hs := Option.some.inj h
          subst hs
          refine ⟨rfl, ?_, ?_, ?_⟩
          · simpa using h1
          · simpa using h2
          · simpa using h3

/-- Witness for the general acceptance condition, at the accepted marker
"(AZF)". -/
theorem normalizeAuthorInitial_vocabulary_witness :
    "azf" = authorCandidate "(AZF)" ∧ isLowerCode "azf" = true ∧
    AUTHOR_BLACKLIST.contains "azf" = false ∧ AUTHOR_ALLOW.contains "azf" = true :=
  normalizeAuthorInitial_vocabulary.2.2.2 "(AZF)" "azf" (by decide)

/-- C7: the raw string "12 September 2025 08:38" with language en parses to
the UTC instant 2025-09-12T01:38:00Z (equal to minute 29294018 since the Unix
epoch), the time-less "12 September 2025" parses to 2025-09-12T05:00:00Z,
i.e. local noon minus the fixed +7 offset, and in general whenever a date
string parses without a time component the captured local time is 12:00. -/
theorem parsePublishedAt_date_derivation :
    (parsePublishedAt "12 September 2025 08:38" "en" = some (utcMinutes 2025 9 12 1 38) ∧
     utcMinutes 2025 9 12 1 38 = 29294018) ∧
    parsePublishedAt "12 September 2025" "en" = some (utcMinutes 2025 9 12 5 0) ∧
    (∀ s p, parseDateParts s = some p → p.hasTime = false →
      p.hourLocal = 12 ∧ p.minuteLocal = 0) := by
  refine ⟨⟨by decide, by decide⟩, by decide, ?_⟩
  intro s p h ht
  unfold parseDateParts at h
  split at h
  · split at h
    · have hp := Option.some.inj h
      subst hp
      exact ⟨rfl, rfl⟩
    · simp at h
  · split at h
    · split at h
      · have hp := Option.some.inj h
        subst hp
        simp at ht
      · simp at h
    · simp at h
  · simp at h

/-- Witness for the noon-default condition at an explicit time-less input. -/
theorem parsePublishedAt_date_derivation_witness :
    (⟨12, "September".toList, 2025, 12, 0, false⟩ : DateParts).hourLocal = 12 ∧
    (⟨12, "September".toList, 2025, 12, 0, false⟩ : DateParts).minuteLocal = 0 :=
  parsePublishedAt_date_derivation.2.2 "12 September 2025"
    ⟨12, "September".toList, 2025, 12, 0, false⟩ (by decide) rfl

/-- C10: `getAllSymbols` tests truthiness of the elapsed-time difference, so
once a catalog is cached any call at a different timestamp returns the cached
list without refetching; in particular after a first fetch at time t0 every
call at a strictly later time serves the cache. -/
theorem getAllSymbols_staleness (fetched fetched2 syms : List (String × String))
    (ts t0 now : Int) (st : SymCache) :
    (st.cachedSymbols = some syms → now - st.cachedSymbolsTimestamp ≠ 0 →
      getAllSymbols fetched now st = (syms, st, false)) ∧
    (t0 < now →
      getAllSymbols fetched2 now ((getAllSymbols fetched t0 ⟨none, ts⟩).2.1) =
        (fetched, (getAllSymbols fetched t0 ⟨none, ts⟩).2.1, false)) := by
  constructor
  · intro hc hnz
    obtain ⟨cs, cts⟩ := st
    simp only at hc
    subst hc
    simp only [getAllSymbols]
    rw [if_pos hnz]
  · intro hlt
    have h1 : (getAllSymbols fetched t0 (⟨none, ts⟩ : SymCache)).2.1 =
        (⟨some fetched, t0⟩ : SymCache) := rfl
    rw [h1]
    simp only [getAllSymbols]
    rw [if_pos (by omega : now - t0 ≠ 0)]

/-- Witness for the staleness behaviour at explicit timestamps 3 < 5. -/
theorem getAllSymbols_staleness_witness :
    getAllSymbols [("1", "GOLD")] 5 ⟨some [("2", "OIL")], 3⟩ =
      ([("2", "OIL")], ⟨some [("2", "OIL")], 3⟩, false) ∧
    getAllSymbols [] 5 ((getAllSymbols [("1", "GOLD")] 3 ⟨none, 0⟩).2.1) =
      ([("1", "GOLD")], (getAllSymbols [("1", "GOLD")] 3 ⟨none, 0⟩).2.1, false) :=
  ⟨(getAllSymbols_staleness [("1", "GOLD")] [] [("2", "OIL")] 0 3 5
      ⟨some [("2", "OIL")], 3⟩).1 rfl (by decide),
   (getAllSymbols_staleness [("1", "GOLD")] [] [("2", "OIL")] 0 3 5
      ⟨some [("2", "OIL")], 3⟩).2 (by decide)⟩

/-- C4 counterexample: the source's `UPDATE_COLS` also overwrites
`source_name`, a column outside the subset enumerated by the specification,
so "every column outside the spec-listed subset keeps its previous value" is
false at this explicit conflicting pair of rows. -/
theorem upsert_spec_cols_counterexample :
    SPEC_LISTED_UPDATE_COLS.contains "source_name" = false ∧
    upsertOnDuplicate UPDATE_COLS (fun _ => "old") (fun _ => "new") "source_name" = "new" ∧
    ("new" : String) ≠ "old" := by decide

/-- C4 amended: on conflict exactly the columns of the source's `UPDATE_COLS`
allow-list are overwritten with the incoming values and every other column
keeps its previous value; `UPDATE_COLS` is the spec-enumerated subset plus
`source_name` and `source_url`. -/
theorem upsert_update_cols (existing incoming : String → String) (c : String) :
    (UPDATE_COLS.contains c = false →
      upsertOnDuplicate UPDATE_COLS existing incoming c = existing c) ∧
    (UPDATE_COLS.contains c = true →
      upsertOnDuplicate UPDATE_COLS existing incoming c = incoming c) ∧
    (∀ x ∈ SPEC_LISTED_UPDATE_COLS, x ∈ UPDATE_COLS) ∧
    (∀ x ∈ UPDATE_COLS, x ∈ SPEC_LISTED_UPDATE_COLS ∨ x = "source_name" ∨ x = "source_url") := by
  refine ⟨?_, ?_, by decide, by decide⟩
  · intro h
    unfold upsertOnDuplicate
    rw [h]
    simp
  · intro h
    unfold upsertOnDuplicate
    rw [h]
    simp

/-- Witness for the column frame at an untouched column (`push_state`) and an
updated column (`summary`). -/
theorem upsert_update_cols_witness :
    upsertOnDuplicate UPDATE_COLS (fun _ => "old") (fun _ => "new") "push_state" =
      (fun _ => "old") "push_state" ∧
    upsertOnDuplicate UPDATE_COLS (fun _ => "old") (fun _ => "new") "summary" =
      (fun _ => "new") "summary" :=
  ⟨(upsert_update_cols (fun _ => "old") (fun _ => "new") "push_state").1 (by decide),
   (upsert_update_cols (fun _ => "old") (fun _ => "new") "summary").2.1 (by decide)⟩

/-- C9: every built news row has `createdAt` and `updatedAt` equal to its
`published_at`; `published_at` is the item's parsed timestamp when one exists,
else the re-parse of the raw date string, and only when both fail does it fall
back to the current time. It is total (never null) by construction. -/
theorem buildNewsRow_timestamps (n : NewsItemIn) (now : Int) :
    ((buildNewsRow n now).createdAt = (buildNewsRow n now).published_at ∧
     (buildNewsRow n now).updatedAt = (buildNewsRow n now).published_at) ∧
    (∀ t, n.publishedAt = some t → (buildNewsRow n now).published_at = t) ∧
    (∀ t, n.publishedAt = none →
      parsePublishedAt n.date (if n.language = "" then "en" else n.language) = some t →
      (buildNewsRow n now).published_at = t) ∧
    (n.publishedAt = none →
      parsePublishedAt n.date (if n.language = "" then "en" else n.language) = none →
      (buildNewsRow n now).published_at = now) := by
  refine ⟨⟨rfl, rfl⟩, ?_, ?_, ?_⟩
  · intro t h; simp [buildNewsRow, h, ensureDate]
  · intro t h hp; simp [buildNewsRow, h, hp, ensureDate]
  · intro h hp; simp [buildNewsRow, h, hp, ensureDate]

/-- Witness: at an explicit item whose date parses, the row's publish
timestamp is the parsed instant. -/
theorem buildNewsRow_timestamps_witness :
    (buildNewsRow ⟨"T", "L", "", "News", "12 September 2025 08:38", "S", "D", "en",
        none, none, none, none⟩ 0).published_at = utcMinutes 2025 9 12 1 38 :=
  (buildNewsRow_timestamps
      ⟨"T", "L", "", "News", "12 September 2025 08:38", "S", "D", "en",
        none, none, none, none⟩ 0).2.2.1
    (utcMinutes 2025 9 12 1 38) rfl (by decide)

lemma retryRequest_attempts_le_aux {ε α : Type} (fn : Nat → Except ε α) :
    ∀ (retries i d : Nat), (retryRequest fn i retries d).attempts ≤ retries + 1 := by
  intro retries
  induction retries with
  | zero =>
    intro i d
    simp only [retryRequest]
    cases fn i <;> simp
  | succ r ih =>
    intro i d
    simp only [retryRequest]
    cases h : fn i with
    | ok a => simp
    | error e =>
      simp only []
      exact Nat.succ_le_succ (ih (i + 1) (d * 2))

lemma retryRequest_allFail_aux {ε α : Type} (fn : Nat → Except ε α)
    (hf : ∀ i, ∃ e, fn i = Except.error e) :
    ∀ (retries i d : Nat),
      (retryRequest fn i retries d).attempts = retries + 1 ∧
      (retryRequest fn i retries d).result = fn (i + retries) ∧
      (retryRequest fn i retries d).sleeps = (List.range retries).map (fun k => d * 2 ^ k) := by
  intro retries
  induction retries with
  | zero =>
    intro i d
    obtain ⟨e, he⟩ := hf i
    simp [retryRequest, he]
  | succ r ih =>
    intro i d
    obtain ⟨e, he⟩ := hf i
    obtain ⟨ha, hr, hs⟩ := ih (i + 1) (d * 2)
    simp only [retryRequest, he]
    refine ⟨by rw [ha], ?_, ?_⟩
    · rw [hr]
      congr 1
      omega
    · rw [hs, List.range_succ_eq_map, List.map_cons, List.map_map]
      congr 1
      · simp
      · apply List.map_congr_left
        intro k _
        simp only [Function.comp_apply]
        rw [pow_succ]
        ring

/-- C5 counterexample: with the source's default arguments (retries = 3,
delayMs = 500) and an always-failing wrapped function, the function is
invoked 4 times — the initial attempt plus 3 retries — so "at most 3
attempts" is false. -/
theorem retryRequest_counterexample :
    (retryRequest (fun i => (Except.error i : Except Nat Unit)) 0 3 500).attempts = 4 ∧
    ¬((retryRequest (fun i => (Except.error i : Except Nat Unit)) 0 3 500).attempts ≤ 3) := by
  decide

/-- C5 amended: `retryRequest(fn, retries, delayMs)` makes at most
retries + 1 attempts (4 with the default retries = 3); when every attempt
fails it makes exactly retries + 1 attempts, propagates the error of the last
attempt, and sleeps before each re-attempt with delays delayMs, 2·delayMs,
4·delayMs, … doubling each time. -/
theorem retryRequest_policy {ε α : Type} (fn : Nat → Except ε α) (retries d : Nat) :
    (retryRequest fn 0 retries d).attempts ≤ retries + 1 ∧
    ((∀ i, ∃ e, fn i = Except.error e) →
      (retryRequest fn 0 retries d).attempts = retries + 1 ∧
      (retryRequest fn 0 retries d).result = fn retries ∧
      (retryRequest fn 0 retries d).sleeps = (List.range retries).map (fun k => d * 2 ^ k)) :=
  ⟨retryRequest_attempts_le_aux fn retries 0 d,
   fun hf => by simpa using retryRequest_allFail_aux fn hf retries 0 d⟩

/-- Witness for the retry policy at the default arguments with an
always-failing function. -/
theorem retryRequest_policy_witness :
    (retryRequest (fun i => (Except.error (i + 100) : Except Nat Unit)) 0 3 500).attempts = 3 + 1 ∧
    (retryRequest (fun i => (Except.error (i + 100) : Except Nat Unit)) 0 3 500).result =
      (fun i => (Except.error (i + 100) : Except Nat Unit)) 3 ∧
    (retryRequest (fun i => (Except.error (i + 100) : Except Nat Unit)) 0 3 500).sleeps =
      (List.range 3).map (fun k => 500 * 2 ^ k) :=
  (retryRequest_policy (fun i => (Except.error (i + 100) : Except Nat Unit)) 3 500).2
    (fun i => ⟨i + 100, rfl⟩)

/-- C3: an item is classified fresh iff its link is in neither the
persisted-links set loaded at the start of the run nor the in-run seen set;
with persisted links A, B and a parsed page A, B, C only C is fresh; and each
page's fresh links are appended to the seen set in the state the loop passes
to every later iteration. -/
theorem freshFilter_dedup :
    (∀ existing seen items l, l ∈ freshFilter existing seen items ↔
      (l ∈ items ∧ l ∉ existing ∧ l ∉ seen)) ∧
    freshFilter ["A", "B"] [] ["A", "B", "C"] = ["C"] ∧
    (∀ existing st items,
      ((newsStep existing (Page.ok items) st).1).seen =
        st.seen ++ freshFilter existing st.seen items) := by
  refine ⟨?_, by decide, ?_⟩
  · intro existing seen items l
    simp [freshFilter, List.mem_filter]
  · intro existing st items
    simp only [newsStep]
    split
    · split <;> rfl
    · rfl

/-- C1 counterexample: for a simulated source that always returns empty pages,
the per-symbol historical loop terminates after exactly one page fetch, not
three: the short-page stop (fewer items than the page size 8) fires on the
first empty page, before the empty-streak threshold can be reached. -/
theorem pagination_hist_counterexample :
    (histLoop (fun _ => []) 5000 10 histInit).fetches = 1 ∧ (1 : Nat) ≠ 3 := by decide

/-- C1 amended: for a source that always yields pages with zero usable/fresh
items, the per-category news loop of `scrapeNewsByLang` makes exactly three
page fetches (the empty-streak threshold, regardless of the persisted-link
set), while the per-symbol loop of `scrapeAllDataForSymbol` makes exactly one
fetch because its short-page check stops it on the first empty page. -/
theorem pagination_termination (fetchNews : Nat → Page) (existing : List String)
    (fuel fuel2 maxRows : Nat) (hf : 3 ≤ fuel) (hf2 : 1 ≤ fuel2) (hm : 1 ≤ maxRows)
    (hne : ∀ off, fetchNews off = Page.ok []) :
    (newsCatLoop fetchNews existing fuel newsInit).fetches = 3 ∧
    (histLoop (fun _ => []) maxRows fuel2 histInit).fetches = 1 := by
  have hfn : fetchNews = fun _ => Page.ok [] := funext hne
  subst hfn
  constructor
  · obtain ⟨k, rfl⟩ : ∃ k, fuel = k + 3 := ⟨fuel - 3, by omega⟩
    rfl
  · obtain ⟨m, rfl⟩ : ∃ m, maxRows = m + 1 := ⟨maxRows - 1, by omega⟩
    obtain ⟨k2, rfl⟩ : ∃ k2, fuel2 = k2 + 1 := ⟨fuel2 - 1, by omega⟩
    rfl

/-- Witness for the amended pagination termination at concrete fuel and row
ceiling. -/
theorem pagination_termination_witness :
    (newsCatLoop (fun _ => Page.ok []) ["A"] 7 newsInit).fetches = 3 ∧
    (histLoop (fun _ => []) 5000 7 histInit).fetches = 1 :=
  pagination_termination (fun _ => Page.ok []) ["A"] 7 7 5000 (by decide) (by decide)
    (by decide) (fun _ => rfl)

lemma saveScrapedRows_cons (table : List HistRow) (sym : String) (r : ScrapedRow)
    (rs : List ScrapedRow) :
    saveScrapedRows table sym (r :: rs) = saveScrapedRows (findOrCreate table sym r.date r) sym rs :=
  rfl

lemma findOrCreate_cases (t : List HistRow) (sym date : String) (d : ScrapedRow) :
    findOrCreate t sym date d = t ∨
    (∃ nr, findOrCreate t sym date d = t ++ [nr] ∧ nr.symbol = sym ∧ nr.date = date ∧
      ∀ r ∈ t, ¬(r.symbol = sym ∧ r.date = date)) := by
  unfold findOrCreate
  split
  · left; rfl
  · right
    rename_i hany
    refine ⟨_, rfl, rfl, rfl, ?_⟩
    intro r hr hc
    apply hany
    rw [List.any_eq_true]
    exact ⟨r, hr, by simp [hc.1, hc.2]⟩

lemma saveScrapedRows_extends (sym : String) :
    ∀ (rows : List ScrapedRow) (table : List HistRow),
      ∃ suffix, saveScrapedRows table sym rows = table ++ suffix ∧
        (∀ r' ∈ suffix, ∀ r ∈ table, ¬(r'.symbol = r.symbol ∧ r'.date = r.date)) ∧
        ((table.map histKey).Nodup → ((table ++ suffix).map histKey).Nodup) := by
  intro rows
  induction rows with
  | nil =>
    intro table
    exact ⟨[], by simp [saveScrapedRows], by simp, by simp⟩
  | cons r rs ih =>
    intro table
    rcases findOrCreate_cases table sym r.date r with heq | ⟨nr, heq, hsym, hdate, hfresh⟩
    · obtain ⟨s, hs, hdisj, hnd⟩ := ih (findOrCreate table sym r.date r)
      rw [heq] at hs hdisj hnd
      exact ⟨s, by rw [saveScrapedRows_cons, heq, hs], hdisj, hnd⟩
    · obtain ⟨s, hs, hdisj, hnd⟩ := ih (table ++ [nr])
      refine ⟨nr :: s, ?_, ?_, ?_⟩
      · rw [saveScrapedRows_cons, heq, hs]
        simp
      · intro r' hr' row hrow
        rcases List.mem_cons.mp hr' with h' | h'
        · subst h'
          intro hc
          exact hfresh row hrow ⟨by rw [← hc.1, hsym], by rw [← hc.2, hdate]⟩
        · exact hdisj r' h' row (by simp [hrow])
      · intro hnodup
        have hsplit : table ++ nr :: s = (table ++ [nr]) ++ s := by simp
        rw [hsplit]
        apply hnd
        rw [List.map_append, List.nodup_append]
        refine ⟨hnodup, by simp, ?_⟩
        intro a ha hb
        simp only [List.map_cons, List.map_nil, List.mem_singleton] at hb
        subst hb
        rw [List.mem_map] at ha
        obtain ⟨row, hrow, hkeq⟩ := ha
        unfold histKey at hkeq
        have h1 : row.symbol = nr.symbol := congrArg Prod.fst hkeq
        have h2 : row.date = nr.date := congrArg Prod.snd hkeq
        exact hfresh row hrow ⟨by rw [h1, hsym], by rw [h2, hdate]⟩

/-- C6: the per-symbol persistence pass only ever appends rows: the resulting
table is the original table followed by a suffix of newly created rows whose
(symbol, date) identities do not collide with any pre-existing row — so a row
that exists is never modified in any field even when re-scraped values differ
— and when the table starts with unique (symbol, date) identities it keeps
them unique, i.e. each identity is created at most once. -/
theorem historical_rows_immutable (table : List HistRow) (sym : String)
    (rows : List ScrapedRow) :
    (∃ suffix, saveScrapedRows table sym rows = table ++ suffix ∧
      ∀ r' ∈ suffix, ∀ r ∈ table, ¬(r'.symbol = r.symbol ∧ r'.date = r.date)) ∧
    ((table.map histKey).Nodup → ((saveScrapedRows table sym rows).map histKey).Nodup) := by
  obtain ⟨s, hs, hdisj, hnd⟩ := saveScrapedRows_extends sym rows table
  exact ⟨⟨s, hs, hdisj⟩, fun h => hs ▸ hnd h⟩

/-- Witness for the immutability of historical rows: re-scraping the same
(symbol, date) with different values leaves the stored row unchanged and the
identity unique. -/
theorem historical_rows_immutable_witness :
    saveScrapedRows [⟨"GOLD", "01 Jan 2025", none, some 1, some 2, some 1, some 2, none, none, none⟩]
        "GOLD" [⟨"01 Jan 2025", some 9, some 9, some 9, some 9, some "x", none, none, none⟩] =
      [⟨"GOLD", "01 Jan 2025", none, some 1, some 2, some 1, some 2, none, none, none⟩] ∧
    ((saveScrapedRows [⟨"GOLD", "01 Jan 2025", none, some 1, some 2, some 1, some 2, none, none, none⟩]
        "GOLD" [⟨"01 Jan 2025", some 9, some 9, some 9, some 9, some "x", none, none, none⟩]).map
          histKey).Nodup :=
  ⟨by decide,
   (historical_rows_immutable
      [⟨"GOLD", "01 Jan 2025", none, some 1, some 2, some 1, some 2, none, none, none⟩] "GOLD"
      [⟨"01 Jan 2025", some 9, some 9, some 9, some 9, some "x", none, none, none⟩]).2
    (by decide)⟩

/-- C2: in every interleaving of two `withLock` invocations on the same key,
no DEL ever removes a key whose current value differs from the deleting
invocation's stored token; and whenever the lock-held intervals overlapped
(one invocation's SET NX failed while the other held the key) and both
invocations have finished, exactly one of them executed `fn` and the other
returned without executing it. -/
theorem withLock_mutual_exclusion (sched : List Bool) :
    (lockRun sched).badDel = false ∧
    ((lockRun sched).blocked = true →
      (lockRun sched).proc0.pc = LockPC.finished →
      (lockRun sched).proc1.pc = LockPC.finished →
      ((lockRun sched).proc0.ranFn = true ∧ (lockRun sched).proc1.ranFn = false) ∨
      ((lockRun sched).proc0.ranFn = false ∧ (lockRun sched).proc1.ranFn = true)) := by
  have h := lockInv_run sched
  unfold lockInv at h
  simp only [Bool.and_eq_true, Bool.not_eq_true'] at h
  obtain ⟨⟨⟨⟨hbad, hp0⟩, hp1⟩, hkey⟩, hblk⟩ := h
  refine ⟨hbad, ?_⟩
  intro hb h0 h1
  cases hr0 : (lockRun sched).proc0.ranFn <;> cases hr1 : (lockRun sched).proc1.ranFn
  · exfalso
    unfold lockBlockedInv failPath acquiredPath at hblk
    rw [hb, h0, h1, hr0, hr1] at hblk
    simp at hblk
  · exact Or.inr ⟨rfl, rfl⟩
  · exact Or.inl ⟨rfl, rfl⟩
  · exfalso
    unfold lockBlockedInv failPath acquiredPath at hblk
    rw [hb, h0, h1, hr0, hr1] at hblk
    simp at hblk

/-- Witness for lock mutual exclusion on an explicit overlapping schedule:
process 0 acquires, process 1 attempts SET NX while the key is held and
returns, then process 0 runs, reads its token back and releases. -/
theorem withLock_mutual_exclusion_witness :
    ((lockRun [false, true, false, false, false]).proc0.ranFn = true ∧
     (lockRun [false, true, false, false, false]).proc1.ranFn = false) ∨
    ((lockRun [false, true, false, false, false]).proc0.ranFn = false ∧
     (lockRun [false, true, false, false, false]).proc1.ranFn = true) :=
  (withLock_mutual_exclusion [false, true, false, false, false]).2 (by decide) (by decide)
    (by decide)
